import Mathlib

/-!
# Verification of the Sudoku backtracking solver

Shallow embedding of `functional_sudoku.py`: the grid/constraint model
(`get_row`, `get_col`, `get_square`, `set_cell`) and the iterative
backtracking solver `smarter_solve`, together with proofs of the spec's
claims about them.

Modelling conventions:
* A Python grid (list of 9 lists of 9 ints) is a `Grid := List (List ℤ)`;
  `gridGet i j g` is `grid[i][j]` (out-of-range access, which is outside
  every claim's domain, defaults to 0), and `writeCell i j v g` is the
  statement `grid[i][j] = v`.
* Python's mutation of the working board is threaded explicitly: `set_cell`
  returns the `(success?, board)` pair, where a rejected call returns the
  board unchanged, exactly as the Python function leaves it untouched.
* Each per-cell candidate list `loop_possibilities[ix]` (a Python list
  created as `list(range(1, 10))` and consumed by `pop()` from the end)
  is stored reversed, so the next value Python pops is the head:
  the fresh list is `full9 = [9, 8, ..., 1]`.
* The outer `while 0 <= ix < N` loop is a fuel-indexed iteration of a step
  function; the fuel `FUEL` is a fixed constant far above the proven bound
  on the number of iterations, and we prove the loop always reaches a
  terminal state (`ix = N` or `ix = -1`) within it.
* The Python function returns `solution` and *prints* either
  `'No solution found!'` (when `ix < 0`) or `'Solution found!'`; the
  embedding returns the whole final loop state, whose `ix` field records
  which branch was taken (`foundSolution` below).
-/

/-- A Sudoku grid: Python's list of (row) lists of integers. -/
abbrev Grid : Type := List (List ℤ)

/-- `grid[i][j]` (defaulting to 0 out of range; every claim stays in range). -/
def gridGet (i j : ℕ) (g : Grid) : ℤ :=
  (g.getD i []).getD j 0

/-- The Python assignment `grid[i][j] = value`. -/
def writeCell (i j : ℕ) (v : ℤ) (g : Grid) : Grid :=
  g.set i ((g.getD i []).set j v)

/-- `get_row(i, grid)`: `grid[i][:]` (the row as a list). -/
def get_row (i : ℕ) (g : Grid) : List ℤ :=
  g.getD i []

/-- `get_col(j, grid)`: `[grid[i][j] for i in range(9)]`. -/
def get_col (j : ℕ) (g : Grid) : List ℤ :=
  (List.range 9).map (fun i => gridGet i j g)

/-- `get_square(i, j, grid)`: the 3x3 square containing cell `(i, j)`,
row-major from its top-left corner, exactly as the double comprehension
`[grid[y][x] for y in range(y1, y1+3) for x in range(x1, x1+3)]`. -/
def get_square (i j : ℕ) (g : Grid) : List ℤ :=
  ((List.range 3).map (fun dy =>
    (List.range 3).map (fun dx => gridGet ((i / 3) * 3 + dy) ((j / 3) * 3 + dx) g))).flatten

/-- `set_cell(i, j, grid, value)`: rejects values outside 1..9, rejects a
value already present in the row, column or square, otherwise writes it.
Returns Python's boolean result together with the (possibly updated) grid. -/
def set_cell (i j : ℕ) (g : Grid) (v : ℤ) : Bool × Grid :=
  if 1 ≤ v ∧ v ≤ 9 then
    if v ∈ get_row i g then (false, g)
    else if v ∈ get_col j g then (false, g)
    else if v ∈ get_square i j g then (false, g)
    else (true, writeCell i j v g)
  else
    (false, g)

/-- `[x for x in range(81) if grid[x // 9][x % 9] == 0]`. -/
def emptyIndices (g : Grid) : List ℕ :=
  (List.range 81).filter (fun x => gridGet (x / 9) (x % 9) g == 0)

/-- The fresh candidate list for one empty cell: Python's
`list(range(1, 10))` consumed by `pop()` from the end, stored here
reversed so the next popped value is the head. -/
def full9 : List ℤ := [9, 8, 7, 6, 5, 4, 3, 2, 1]

/-- The solver's loop state: cursor `ix`, working board `solution`, and the
live candidate lists `loop_possibilities` (each stored reversed). -/
structure SolveState where
  ix : ℤ
  sol : Grid
  poss : List (List ℤ)
deriving DecidableEq

/-- The inner `while len(loop_possibilities[ix]) > 0` loop: pop candidate
values one at a time and try `set_cell`; `some (board, rest)` on the first
success (with the remaining candidates), `none` when the list is exhausted
(every attempt left the board unchanged, as rejected `set_cell` calls do). -/
def tryValues (i j : ℕ) (g : Grid) : List ℤ → Option (Grid × List ℤ)
  | [] => none
  | v :: rest =>
    match set_cell i j g v with
    | (true, g') => some (g', rest)
    | (false, _) => tryValues i j g rest

/-- One iteration of the outer `while 0 <= ix < N` loop (assuming the
guard holds): fetch the cell, run the inner loop; on success advance the
cursor, on exhaustion clear the cell, reset its candidate list to a fresh
full copy and back the cursor up. -/
def stepOuter (E : List ℕ) (st : SolveState) : SolveState :=
  match tryValues (E.getD st.ix.toNat 0 / 9) (E.getD st.ix.toNat 0 % 9) st.sol
      (st.poss.getD st.ix.toNat []) with
  | some (g', rest) => ⟨st.ix + 1, g', st.poss.set st.ix.toNat rest⟩
  | none =>
    ⟨st.ix - 1, writeCell (E.getD st.ix.toNat 0 / 9) (E.getD st.ix.toNat 0 % 9) 0 st.sol,
      st.poss.set st.ix.toNat full9⟩

/-- The outer loop guard `0 <= ix < N`. -/
def loopActive (N : ℕ) (st : SolveState) : Prop :=
  0 ≤ st.ix ∧ st.ix < (N : ℤ)

instance (N : ℕ) (st : SolveState) : Decidable (loopActive N st) := by
  unfold loopActive; infer_instance

/-- Fuel-indexed iteration of the outer loop. -/
def runLoop (E : List ℕ) (N : ℕ) : ℕ → SolveState → SolveState
  | 0, st => st
  | n + 1, st =>
    if loopActive N st then runLoop E N n (stepOuter E st) else st

/-- Fuel for the outer loop; far above the proven iteration bound
(at most `9 * 10 ^ 80 * 83 + 2` iterations occur for any input). -/
def FUEL : ℕ := 10 ^ 90

/-- `smarter_solve(grid)`: deep-copy the grid, list the empty cell indices,
give each a full candidate list, and run the backtracking loop.  The final
state's `sol` is the board the Python function returns; its `ix` records
which message was printed (`ix < 0` means `'No solution found!'`). -/
def smarter_solve (g : Grid) : SolveState :=
  let E := emptyIndices g
  let N := E.length
  runLoop E N FUEL ⟨0, g, List.replicate N full9⟩

/-- The `else` branch at the end of `smarter_solve` (line 285): the search
did not exhaust, `'Solution found!'` is printed. -/
def foundSolution (st : SolveState) : Prop := 0 ≤ st.ix

instance (st : SolveState) : Decidable (foundSolution st) := by
  unfold foundSolution; infer_instance

/-- A well-shaped 9x9 grid. -/
def Wf (g : Grid) : Prop :=
  g.length = 9 ∧ ∀ r ∈ g, r.length = 9

instance (g : Grid) : Decidable (Wf g) := by
  unfold Wf; infer_instance

/-- All cell values of the grid lie in `{0, ..., 9}`. -/
def valuesIn (g : Grid) : Prop :=
  ∀ i < 9, ∀ j < 9, 0 ≤ gridGet i j g ∧ gridGet i j g ≤ 9

instance (g : Grid) : Decidable (valuesIn g) := by
  unfold valuesIn; infer_instance

/-- A list with no duplicated nonzero entry. -/
def nodupNZ (l : List ℤ) : Prop :=
  l.Pairwise (fun a b => a ≠ 0 → a ≠ b)

instance (l : List ℤ) : Decidable (nodupNZ l) := by
  unfold nodupNZ; infer_instance

/-- No row, column or 3x3 square of the grid has a duplicated nonzero
value. -/
def okGrid (g : Grid) : Prop :=
  (∀ i < 9, nodupNZ (get_row i g)) ∧ (∀ j < 9, nodupNZ (get_col j g)) ∧
    (∀ i < 9, ∀ j < 9, nodupNZ (get_square i j g))

instance (g : Grid) : Decidable (okGrid g) := by
  unfold okGrid; infer_instance

/-- The nine digits, in order. -/
def oneNine : List ℤ := [1, 2, 3, 4, 5, 6, 7, 8, 9]

/-- A fully solved board: every row, column and square is exactly a
permutation of 1..9. -/
def validBoard (g : Grid) : Prop :=
  (∀ i < 9, (get_row i g).Perm oneNine) ∧ (∀ j < 9, (get_col j g).Perm oneNine) ∧
    (∀ i < 9, ∀ j < 9, (get_square i j g).Perm oneNine)

instance (g : Grid) : Decidable (validBoard g) := by
  unfold validBoard; infer_instance

/-- `B` is a consistent completion of `g`: a well-shaped valid board that
keeps every nonzero (given) cell of `g`. -/
def completionOf (B g : Grid) : Prop :=
  Wf B ∧ validBoard B ∧ ∀ i < 9, ∀ j < 9, gridGet i j g ≠ 0 → gridGet i j B = gridGet i j g

/-- `g` admits some consistent completion. -/
def admitsCompletion (g : Grid) : Prop :=
  ∃ B, completionOf B g

/-- A reference complete valid board (`B0[i][j] = (3*(i%3) + i/3 + j) % 9 + 1`),
used to build concrete test inputs. -/
def B0 : Grid :=
  (List.range 9).map (fun i =>
    (List.range 9).map (fun j => ((3 * (i % 3) + i / 3 + j) % 9 + 1 : ℤ)))

/-- The all-ones grid: fully given, and invalid in every row, column and
square. -/
def allOnes : Grid := List.replicate 9 (List.replicate 9 (1 : ℤ))

/-- `B0` with a duplicated `2` in row 0 (cells `(0,0)` and `(0,1)`) and
cell `(8,8)` blanked: an invalid start the solver nevertheless completes. -/
def C3grid : Grid := writeCell 8 8 0 (writeCell 0 0 2 B0)

/-- `B0` with cell `(8,0)` overwritten by `8` and cell `(8,8)` blanked:
the blank cell has no legal value, so the search exhausts. -/
def C10grid : Grid := writeCell 8 8 0 (writeCell 8 0 8 B0)

/-- `B0` with cell `(8,8)` blanked: a consistent puzzle with one blank. -/
def B1 : Grid := writeCell 8 8 0 B0

section ListHelpers

variable {α : Type _}

theorem getD_set_self (l : List α) (i : ℕ) (v d : α) (h : i < l.length) :
    (l.set i v).getD i d = v := by
  induction l generalizing i with
  | nil => simp at h
  | cons a t ih =>
    cases i with
    | zero => rfl
    | succ n => simpa using ih n (by simpa using h)

theorem getD_set_ne (l : List α) (i k : ℕ) (v d : α) (h : i ≠ k) :
    (l.set i v).getD k d = l.getD k d := by
  induction l generalizing i k with
  | nil => rfl
  | cons a t ih =>
    cases i with
    | zero => cases k with
      | zero => exact absurd rfl h
      | succ m => rfl
    | succ n => cases k with
      | zero => rfl
      | succ m => simpa using ih n m (by omega)

theorem getD_mem_of_lt (l : List α) (i : ℕ) (d : α) (h : i < l.length) :
    l.getD i d ∈ l := by
  induction l generalizing i with
  | nil => simp at h
  | cons a t ih =>
    cases i with
    | zero => simp [List.getD]
    | succ n =>
      have := ih n (by simpa using h)
      simpa [List.getD] using Or.inr this

theorem getD_eq_getElem_of_lt (l : List α) (i : ℕ) (d : α) (h : i < l.length) :
    l.getD i d = l[i] := by
  simp [List.getD_eq_getElem?_getD, List.getElem?_eq_getElem h]

end ListHelpers

section GridHelpers

theorem wf_writeCell {g : Grid} (h : Wf g) (i j : ℕ) (v : ℤ) :
    Wf (writeCell i j v g) := by
  obtain ⟨hlen, hrow⟩ := h
  by_cases hig : i < g.length
  · refine ⟨by simpa [writeCell] using hlen, ?_⟩
    intro r hr
    rcases List.mem_or_eq_of_mem_set hr with hmem | rfl
    · exact hrow r hmem
    · rw [List.length_set]
      exact hrow _ (getD_mem_of_lt g i [] hig)
  · unfold writeCell
    rw [List.set_eq_of_length_le (by omega)]
    exact ⟨hlen, hrow⟩

theorem gridGet_writeCell_self {g : Grid} (h : Wf g) {i j : ℕ} (hi : i < 9) (hj : j < 9)
    (v : ℤ) : gridGet i j (writeCell i j v g) = v := by
  obtain ⟨hlen, hrow⟩ := h
  have hig : i < g.length := by omega
  have hjr : j < (g.getD i []).length := by
    rw [hrow _ (getD_mem_of_lt g i [] hig)]; exact hj
  unfold gridGet writeCell
  rw [getD_set_self _ _ _ _ (by simpa using hig), getD_set_self _ _ _ _ hjr]

theorem gridGet_writeCell_ne (g : Grid) {i j i' j' : ℕ} (h : (i', j') ≠ (i, j))
    (v : ℤ) : gridGet i' j' (writeCell i j v g) = gridGet i' j' g := by
  unfold gridGet writeCell
  by_cases hi : i' = i
  · subst hi
    have hj : j ≠ j' := fun hh => h (by rw [hh])
    by_cases hig : i' < g.length
    · rw [getD_set_self _ _ _ _ hig, getD_set_ne _ _ _ _ _ hj]
    · rw [List.set_eq_of_length_le (by omega)]
  · rw [getD_set_ne _ _ _ _ _ (fun hh => hi hh.symm)]

theorem get_row_eq_map {g : Grid} (h : Wf g) {i : ℕ} (hi : i < 9) :
    get_row i g = (List.range 9).map (fun j => gridGet i j g) := by
  obtain ⟨hlen, hrow⟩ := h
  have hig : i < g.length := by omega
  have hlr : (g.getD i []).length = 9 := hrow _ (getD_mem_of_lt g i [] hig)
  apply List.ext_getElem
  · show (g.getD i []).length = _
    rw [hlr]; simp
  · intro q h1 h2
    show (g.getD i [])[q] = _
    rw [List.getElem_map, List.getElem_range]
    unfold gridGet
    have h1' : q < (g.getD i []).length := h1
    rw [getD_eq_getElem_of_lt _ _ _ h1']

theorem get_square_eq_map (i j : ℕ) (g : Grid) :
    get_square i j g =
      (List.range 9).map (fun q => gridGet ((i / 3) * 3 + q / 3) ((j / 3) * 3 + q % 3) g) := by
  rfl

theorem mem_get_row_iff {g : Grid} (h : Wf g) {i : ℕ} (hi : i < 9) (v : ℤ) :
    v ∈ get_row i g ↔ ∃ j, j < 9 ∧ gridGet i j g = v := by
  rw [get_row_eq_map h hi]
  simp only [List.mem_map, List.mem_range]

theorem mem_get_col_iff (g : Grid) (j : ℕ) (v : ℤ) :
    v ∈ get_col j g ↔ ∃ i, i < 9 ∧ gridGet i j g = v := by
  unfold get_col
  simp only [List.mem_map, List.mem_range]

theorem mem_get_square_iff {i j : ℕ} (hi : i < 9) (hj : j < 9) (g : Grid) (v : ℤ) :
    v ∈ get_square i j g ↔
      ∃ i', i' < 9 ∧ ∃ j', j' < 9 ∧
        (i' / 3 = i / 3 ∧ j' / 3 = j / 3 ∧ gridGet i' j' g = v) := by
  rw [get_square_eq_map]
  simp only [List.mem_map, List.mem_range]
  constructor
  · rintro ⟨q, hq, rfl⟩
    exact ⟨(i / 3) * 3 + q / 3, by omega, (j / 3) * 3 + q % 3, by omega, by omega, by omega, rfl⟩
  · rintro ⟨i', hi', j', hj', hbi, hbj, rfl⟩
    refine ⟨(i' % 3) * 3 + j' % 3, by omega, ?_⟩
    congr 1 <;> omega

end GridHelpers

section SetCellLemmas

theorem set_cell_of_not_range {i j : ℕ} {g : Grid} {v : ℤ} (h : ¬(1 ≤ v ∧ v ≤ 9)) :
    set_cell i j g v = (false, g) := by
  unfold set_cell
  rw [if_neg h]

theorem set_cell_of_clash {i j : ℕ} {g : Grid} {v : ℤ} (hv : 1 ≤ v ∧ v ≤ 9)
    (h : v ∈ get_row i g ∨ v ∈ get_col j g ∨ v ∈ get_square i j g) :
    set_cell i j g v = (false, g) := by
  unfold set_cell
  rw [if_pos hv]
  split_ifs with h1 h2 h3
  · rfl
  · rfl
  · rfl
  · exact absurd h (by tauto)

theorem set_cell_of_ok {i j : ℕ} {g : Grid} {v : ℤ} (hv : 1 ≤ v ∧ v ≤ 9)
    (h1 : v ∉ get_row i g) (h2 : v ∉ get_col j g) (h3 : v ∉ get_square i j g) :
    set_cell i j g v = (true, writeCell i j v g) := by
  unfold set_cell
  rw [if_pos hv, if_neg h1, if_neg h2, if_neg h3]

/-- Inversion: a `set_cell` call either fails and returns the grid
unchanged, or succeeds, in which case the value was in range, absent from
the row, column and square, and got written. -/
theorem set_cell_inv {i j : ℕ} {g : Grid} {v : ℤ} {b : Bool} {g' : Grid}
    (h : set_cell i j g v = (b, g')) :
    (b = false ∧ g' = g) ∨
      (b = true ∧ (1 ≤ v ∧ v ≤ 9) ∧ v ∉ get_row i g ∧ v ∉ get_col j g ∧
        v ∉ get_square i j g ∧ g' = writeCell i j v g) := by
  unfold set_cell at h
  by_cases hv : 1 ≤ v ∧ v ≤ 9
  · rw [if_pos hv] at h
    by_cases h1 : v ∈ get_row i g
    · rw [if_pos h1] at h
      exact Or.inl ⟨(Prod.mk.injEq .. ▸ h).1.symm, (Prod.mk.injEq .. ▸ h).2.symm⟩
    · rw [if_neg h1] at h
      by_cases h2 : v ∈ get_col j g
      · rw [if_pos h2] at h
        exact Or.inl ⟨(Prod.mk.injEq .. ▸ h).1.symm, (Prod.mk.injEq .. ▸ h).2.symm⟩
      · rw [if_neg h2] at h
        by_cases h3 : v ∈ get_square i j g
        · rw [if_pos h3] at h
          exact Or.inl ⟨(Prod.mk.injEq .. ▸ h).1.symm, (Prod.mk.injEq .. ▸ h).2.symm⟩
        · rw [if_neg h3] at h
          exact Or.inr ⟨(Prod.mk.injEq .. ▸ h).1.symm, hv, h1, h2, h3,
            (Prod.mk.injEq .. ▸ h).2.symm⟩
  · rw [if_neg hv] at h
    exact Or.inl ⟨(Prod.mk.injEq .. ▸ h).1.symm, (Prod.mk.injEq .. ▸ h).2.symm⟩

end SetCellLemmas

section NodupLemmas

theorem nodupNZ_tail {a : ℤ} {t : List ℤ} (h : nodupNZ (a :: t)) : nodupNZ t :=
  (List.pairwise_cons.mp h).2

theorem nodupNZ_set {l : List ℤ} {v : ℤ} (hv : v = 0 ∨ v ∉ l) (h : nodupNZ l) (j : ℕ) :
    nodupNZ (l.set j v) := by
  induction l generalizing j with
  | nil => simpa using h
  | cons a t ih =>
    cases j with
    | zero =>
      rw [List.set_cons_zero]
      refine List.pairwise_cons.mpr ⟨?_, nodupNZ_tail h⟩
      intro b hb hv0
      rcases hv with rfl | hv
      · exact absurd rfl hv0
      · exact fun hh => hv (hh ▸ List.mem_cons_of_mem a hb)
    | succ n =>
      rw [List.set_cons_succ]
      refine List.pairwise_cons.mpr ⟨?_, ?_⟩
      · intro b hb ha
        rcases List.mem_or_eq_of_mem_set hb with hbt | rfl
        · exact (List.pairwise_cons.mp h).1 b hbt ha
        · rcases hv with rfl | hv
          · exact ha
          · exact fun hh => hv (hh ▸ List.mem_cons_self a t)
      · refine ih ?_ (nodupNZ_tail h) n
        rcases hv with rfl | hv
        · exact Or.inl rfl
        · exact Or.inr (fun hh => hv (List.mem_cons_of_mem a hh))

end NodupLemmas

section GroupUpdateLemmas

theorem get_row_writeCell_self {g : Grid} (h : Wf g) {i : ℕ} (hi : i < 9) (j : ℕ) (v : ℤ) :
    get_row i (writeCell i j v g) = (get_row i g).set j v := by
  obtain ⟨hlen, _⟩ := h
  unfold get_row writeCell
  exact getD_set_self _ _ _ _ (by omega)

theorem get_row_writeCell_ne (g : Grid) {i i' : ℕ} (h : i' ≠ i) (j : ℕ) (v : ℤ) :
    get_row i' (writeCell i j v g) = get_row i' g := by
  unfold get_row writeCell
  exact getD_set_ne _ _ _ _ _ (fun hh => h hh.symm)

theorem get_col_writeCell_self {g : Grid} (h : Wf g) {i j : ℕ} (hi : i < 9) (hj : j < 9)
    (v : ℤ) : get_col j (writeCell i j v g) = (get_col j g).set i v := by
  apply List.ext_getElem
  · simp [get_col]
  · intro q h1 h2
    have hq : q < 9 := by simpa [get_col] using h1
    rw [List.getElem_set]
    unfold get_col
    rw [List.getElem_map, List.getElem_range]
    by_cases hqi : i = q
    · subst hqi
      rw [if_pos rfl]
      exact gridGet_writeCell_self h hi hj v
    · rw [if_neg hqi, List.getElem_map, List.getElem_range]
      exact gridGet_writeCell_ne g (fun hh => hqi (Prod.mk.injEq .. ▸ hh).1.symm) v

theorem get_col_writeCell_ne (g : Grid) {j j' : ℕ} (h : j' ≠ j) (i : ℕ) (v : ℤ) :
    get_col j' (writeCell i j v g) = get_col j' g := by
  unfold get_col
  apply List.map_congr_left
  intro q _
  exact gridGet_writeCell_ne g (fun hh => h (Prod.mk.injEq .. ▸ hh).2) v

theorem get_square_congr {i j i' j' : ℕ} (hbi : i' / 3 = i / 3) (hbj : j' / 3 = j / 3)
    (g : Grid) : get_square i' j' g = get_square i j g := by
  rw [get_square_eq_map, get_square_eq_map, hbi, hbj]

theorem get_square_writeCell_self {g : Grid} (h : Wf g) {i j : ℕ} (hi : i < 9) (hj : j < 9)
    (v : ℤ) :
    get_square i j (writeCell i j v g) = (get_square i j g).set ((i % 3) * 3 + j % 3) v := by
  rw [get_square_eq_map, get_square_eq_map]
  apply List.ext_getElem
  · simp
  · intro q h1 h2
    have hq : q < 9 := by simpa using h1
    rw [List.getElem_set, List.getElem_map, List.getElem_range]
    by_cases hqs : (i % 3) * 3 + j % 3 = q
    · rw [if_pos hqs]
      have hie : (i / 3) * 3 + q / 3 = i := by omega
      have hje : (j / 3) * 3 + q % 3 = j := by omega
      rw [hie, hje]
      exact gridGet_writeCell_self h hi hj v
    · rw [if_neg hqs, List.getElem_map, List.getElem_range]
      refine gridGet_writeCell_ne g ?_ v
      intro hh
      have h1' := (Prod.mk.injEq .. ▸ hh).1
      have h2' := (Prod.mk.injEq .. ▸ hh).2
      omega

theorem get_square_writeCell_ne (g : Grid) {i j i' j' : ℕ}
    (h : ¬(i' / 3 = i / 3 ∧ j' / 3 = j / 3)) (v : ℤ) :
    get_square i' j' (writeCell i j v g) = get_square i' j' g := by
  rw [get_square_eq_map, get_square_eq_map]
  apply List.map_congr_left
  intro q hq
  rw [List.mem_range] at hq
  refine gridGet_writeCell_ne g ?_ v
  intro hh
  have h1' := (Prod.mk.injEq .. ▸ hh).1
  have h2' := (Prod.mk.injEq .. ▸ hh).2
  exact h ⟨by omega, by omega⟩

end GroupUpdateLemmas

section OkGridPreservation

/-- Writing `v` at `(i, j)` preserves the no-duplicate invariant provided
`v` is 0 (a clear) or absent from the cell's row, column and square. -/
theorem okGrid_writeCell {g : Grid} (h : Wf g) {i j : ℕ} (hi : i < 9) (hj : j < 9)
    {v : ℤ} (hv : v = 0 ∨ (v ∉ get_row i g ∧ v ∉ get_col j g ∧ v ∉ get_square i j g))
    (hok : okGrid g) : okGrid (writeCell i j v g) := by
  obtain ⟨hrows, hcols, hsqs⟩ := hok
  refine ⟨?_, ?_, ?_⟩
  · intro i' hi'
    by_cases hii : i' = i
    · subst hii
      rw [get_row_writeCell_self h hi' j v]
      exact nodupNZ_set (by tauto) (hrows i' hi') j
    · rw [get_row_writeCell_ne g hii j v]
      exact hrows i' hi'
  · intro j' hj'
    by_cases hjj : j' = j
    · subst hjj
      rw [get_col_writeCell_self h hi hj' v]
      exact nodupNZ_set (by tauto) (hcols j' hj') i
    · rw [get_col_writeCell_ne g hjj i v]
      exact hcols j' hj'
  · intro i' hi' j' hj'
    by_cases hb : i' / 3 = i / 3 ∧ j' / 3 = j / 3
    · rw [get_square_congr hb.1 hb.2, get_square_writeCell_self h hi hj v]
      exact nodupNZ_set (by tauto) (hsqs i hi j hj) _
    · rw [get_square_writeCell_ne g hb v]
      exact hsqs i' hi' j' hj'

/-- Any `set_cell` call (accepted or rejected, any value) preserves the
no-duplicate invariant. -/
theorem okGrid_set_cell_snd {g : Grid} (h : Wf g) {i j : ℕ} (hi : i < 9) (hj : j < 9)
    (v : ℤ) (hok : okGrid g) : okGrid (set_cell i j g v).2 := by
  rcases hsc : set_cell i j g v with ⟨b, g'⟩
  rcases set_cell_inv hsc with ⟨_, rfl⟩ | ⟨_, _, h1, h2, h3, rfl⟩
  · exact hok
  · exact okGrid_writeCell h hi hj (Or.inr ⟨h1, h2, h3⟩) hok

/-- Clearing a cell (writing 0) preserves the no-duplicate invariant. -/
theorem okGrid_clear {g : Grid} (h : Wf g) {i j : ℕ} (hi : i < 9) (hj : j < 9)
    (hok : okGrid g) : okGrid (writeCell i j 0 g) :=
  okGrid_writeCell h hi hj (Or.inl rfl) hok

end OkGridPreservation

/-- The condition of claim C4, at the cell level: `v` already appears in
some cell of row `i`, of column `j`, or of the 3x3 block containing
`(i, j)`. -/
def appearsInGroups (g : Grid) (i j : ℕ) (v : ℤ) : Prop :=
  (∃ j', j' < 9 ∧ gridGet i j' g = v) ∨ (∃ i', i' < 9 ∧ gridGet i' j g = v) ∨
    (∃ i', i' < 9 ∧ ∃ j', j' < 9 ∧
      (i' / 3 = i / 3 ∧ j' / 3 = j / 3 ∧ gridGet i' j' g = v))

instance (g : Grid) (i j : ℕ) (v : ℤ) : Decidable (appearsInGroups g i j v) := by
  unfold appearsInGroups; infer_instance

theorem appearsInGroups_iff_mem {g : Grid} (h : Wf g) {i j : ℕ} (hi : i < 9) (hj : j < 9)
    (v : ℤ) :
    appearsInGroups g i j v ↔
      v ∈ get_row i g ∨ v ∈ get_col j g ∨ v ∈ get_square i j g := by
  unfold appearsInGroups
  rw [mem_get_row_iff h hi, mem_get_col_iff, mem_get_square_iff hi hj]

/-- C4: with `i, j` in range and `value` in 1..9, `set_cell` rejects
(returns `False`, grid unchanged) exactly when the value already appears
in the cell's row, column or block; otherwise it returns `True`, writes
the value into cell `(i, j)`, and changes no other cell. -/
theorem set_cell_spec (g : Grid) (i j : ℕ) (v : ℤ) (hw : Wf g) (hi : i < 9) (hj : j < 9)
    (hv1 : 1 ≤ v) (hv9 : v ≤ 9) :
    (appearsInGroups g i j v → set_cell i j g v = (false, g)) ∧
      (¬ appearsInGroups g i j v →
        (set_cell i j g v).1 = true ∧ gridGet i j (set_cell i j g v).2 = v ∧
          ∀ i' j', (i', j') ≠ (i, j) → gridGet i' j' (set_cell i j g v).2 = gridGet i' j' g) := by
  rw [appearsInGroups_iff_mem hw hi hj]
  constructor
  · intro hmem
    exact set_cell_of_clash ⟨hv1, hv9⟩ hmem
  · intro hmem
    push_neg at hmem
    obtain ⟨h1, h2, h3⟩ := hmem
    rw [set_cell_of_ok ⟨hv1, hv9⟩ h1 h2 h3]
    exact ⟨rfl, gridGet_writeCell_self hw hi hj v,
      fun i' j' hne => gridGet_writeCell_ne g hne v⟩

/-- Witness for C4 at a concrete accepted call: cell (8,8) of `B1` is
blank and the value 8 clashes with nothing, so it is written. -/
theorem set_cell_spec_witness :
    ¬ appearsInGroups B1 8 8 8 ∧
      ((set_cell 8 8 B1 8).1 = true ∧ gridGet 8 8 (set_cell 8 8 B1 8).2 = 8 ∧
        ∀ i' j', (i', j') ≠ (8, 8) → gridGet i' j' (set_cell 8 8 B1 8).2 = gridGet i' j' B1) :=
  ⟨by decide,
    (set_cell_spec B1 8 8 8 (by decide) (by decide) (by decide) (by decide) (by decide)).2
      (by decide)⟩

/-- C5: a `set_cell` call on a grid with no duplicated nonzero value in
any row, column or block leaves that invariant intact, whether the call
is accepted or rejected, for any value. -/
theorem set_cell_preserves_okGrid (g : Grid) (i j : ℕ) (v : ℤ) (hw : Wf g) (hi : i < 9)
    (hj : j < 9) (hok : okGrid g) : okGrid (set_cell i j g v).2 :=
  okGrid_set_cell_snd hw hi hj v hok

/-- Witness for C5 at a concrete call (a clashing value on `B1`). -/
theorem set_cell_preserves_okGrid_witness :
    okGrid B1 ∧ okGrid (set_cell 8 8 B1 5).2 :=
  ⟨by decide,
    set_cell_preserves_okGrid B1 8 8 5 (by decide) (by decide) (by decide) (by decide)⟩

/-- C8: a value outside 1..9 (0, negative, or above 9) is rejected like a
constraint clash: `set_cell` returns `False` with the grid unchanged, and
no distinct error arises (the result is the same `(False, grid)` pair). -/
theorem set_cell_rejects_out_of_range (g : Grid) (i j : ℕ) (v : ℤ) (h : v < 1 ∨ 9 < v) :
    set_cell i j g v = (false, g) :=
  set_cell_of_not_range (by omega)

/-- Witness for C8 at the concrete out-of-range value 0. -/
theorem set_cell_rejects_out_of_range_witness :
    ((0 : ℤ) < 1 ∨ (9 : ℤ) < 0) ∧ set_cell 0 0 allOnes 0 = (false, allOnes) :=
  ⟨Or.inl (by decide), set_cell_rejects_out_of_range allOnes 0 0 0 (Or.inl (by decide))⟩

section EmptyIndicesLemmas

theorem emptyIndices_lt_81 {g : Grid} {x : ℕ} (h : x ∈ emptyIndices g) : x < 81 := by
  have := List.mem_range.mp (List.mem_of_mem_filter h)
  exact this

theorem emptyIndices_cell_zero {g : Grid} {x : ℕ} (h : x ∈ emptyIndices g) :
    gridGet (x / 9) (x % 9) g = 0 := by
  have := List.of_mem_filter h
  exact beq_iff_eq.mp this

theorem mem_emptyIndices {g : Grid} {x : ℕ} (hx : x < 81) :
    x ∈ emptyIndices g ↔ gridGet (x / 9) (x % 9) g = 0 := by
  constructor
  · exact emptyIndices_cell_zero
  · intro h
    exact List.mem_filter.mpr ⟨List.mem_range.mpr hx, beq_iff_eq.mpr h⟩

theorem emptyIndices_nodup (g : Grid) : (emptyIndices g).Nodup :=
  (List.nodup_range 81).filter _

theorem emptyIndices_length_le (g : Grid) : (emptyIndices g).length ≤ 81 := by
  calc (emptyIndices g).length ≤ (List.range 81).length := List.length_filter_le _ _
  _ = 81 := List.length_range 81

/-- Distinct positions in the empty-cell list name distinct cell indices. -/
theorem emptyIndices_getD_inj {g : Grid} {k k' : ℕ} (hk : k < (emptyIndices g).length)
    (hk' : k' < (emptyIndices g).length) (hne : k ≠ k') :
    (emptyIndices g).getD k 0 ≠ (emptyIndices g).getD k' 0 := by
  rw [getD_eq_getElem_of_lt _ _ _ hk, getD_eq_getElem_of_lt _ _ _ hk']
  intro heq
  exact hne ((List.Nodup.getElem_inj_iff (emptyIndices_nodup g)).mp heq)

/-- A linear cell index determines the cell: distinct indices give distinct
(row, column) pairs. -/
theorem cellPair_ne_of_ne {x x' : ℕ} (h : x ≠ x') :
    (x' / 9, x' % 9) ≠ (x / 9, x % 9) := by
  intro hh
  have h1 := (Prod.mk.injEq .. ▸ hh).1
  have h2 := (Prod.mk.injEq .. ▸ hh).2
  omega

end EmptyIndicesLemmas

section TryValuesLemmas

/-- Inversion for a successful inner loop: some candidate from the list was
accepted by `set_cell` (earlier rejected attempts leave the board alone),
and the remaining candidate list got strictly shorter. -/
theorem tryValues_some_inv {i j : ℕ} {g : Grid} {l : List ℤ} {g' : Grid} {rest : List ℤ}
    (h : tryValues i j g l = some (g', rest)) :
    ∃ v, v ∈ l ∧ set_cell i j g v = (true, g') ∧ rest.length < l.length := by
  induction l with
  | nil => simp [tryValues] at h
  | cons v t ih =>
    rcases hsc : set_cell i j g v with ⟨b, g2⟩
    cases b with
    | true =>
      rw [tryValues, hsc] at h
      obtain ⟨h1, h2⟩ := Prod.mk.injEq .. ▸ Option.some.injEq .. ▸ h
      exact ⟨v, List.mem_cons_self v t, by rw [hsc, h1], by rw [← h2]; simp⟩
    | false =>
      rw [tryValues, hsc] at h
      obtain ⟨v', hv1, hv2, hv3⟩ := ih h
      exact ⟨v', List.mem_cons_of_mem v hv1, hv2, by simpa using Nat.lt_succ_of_lt hv3⟩

/-- Inversion for a successful `set_cell`: the value was in range, clashed
with nothing, and the result board is the single-cell write. -/
theorem set_cell_true_inv {i j : ℕ} {g : Grid} {v : ℤ} {g' : Grid}
    (h : set_cell i j g v = (true, g')) :
    (1 ≤ v ∧ v ≤ 9) ∧ v ∉ get_row i g ∧ v ∉ get_col j g ∧ v ∉ get_square i j g ∧
      g' = writeCell i j v g := by
  rcases set_cell_inv h with ⟨hb, _⟩ | ⟨_, h1, h2, h3, h4, h5⟩
  · exact absurd hb (by simp)
  · exact ⟨h1, h2, h3, h4, h5⟩

end TryValuesLemmas

/-- The loop invariant maintained by `smarter_solve`'s outer loop, relative
to the input grid `g₀`: the working board stays well-shaped; originally
given (nonzero) cells never change; empty cells strictly beyond the cursor
are blank; empty cells strictly before the cursor hold a value 1..9; the
candidate-list vector keeps its length, with each list at most 9 long; and
the cursor stays within `[-1, N]`. -/
structure BaseInv (g₀ : Grid) (st : SolveState) : Prop where
  wf : Wf st.sol
  pres : ∀ i j, i < 9 → j < 9 → gridGet i j g₀ ≠ 0 → gridGet i j st.sol = gridGet i j g₀
  above : ∀ k, k < (emptyIndices g₀).length → st.ix < (k : ℤ) →
    gridGet ((emptyIndices g₀).getD k 0 / 9) ((emptyIndices g₀).getD k 0 % 9) st.sol = 0
  below : ∀ k, k < (emptyIndices g₀).length → (k : ℤ) < st.ix →
    1 ≤ gridGet ((emptyIndices g₀).getD k 0 / 9) ((emptyIndices g₀).getD k 0 % 9) st.sol ∧
      gridGet ((emptyIndices g₀).getD k 0 / 9) ((emptyIndices g₀).getD k 0 % 9) st.sol ≤ 9
  possLen : st.poss.length = (emptyIndices g₀).length
  possBound : ∀ l ∈ st.poss, l.length ≤ 9
  ixLo : -1 ≤ st.ix
  ixHi : st.ix ≤ ((emptyIndices g₀).length : ℤ)

/-- One outer-loop iteration preserves the invariant. -/
theorem baseInv_step {g₀ : Grid} {st : SolveState} (h : BaseInv g₀ st)
    (hact : loopActive (emptyIndices g₀).length st) :
    BaseInv g₀ (stepOuter (emptyIndices g₀) st) := by
  obtain ⟨hwf, hpres, habove, hbelow, hplen, hpbound, hlo, hhi⟩ := h
  obtain ⟨hix0, hixN⟩ := hact
  set k := st.ix.toNat with hk
  have hkix : (k : ℤ) = st.ix := Int.toNat_of_nonneg hix0
  have hkN : k < (emptyIndices g₀).length := by omega
  set x := (emptyIndices g₀).getD k 0 with hxdef
  have hxE : x ∈ emptyIndices g₀ := getD_mem_of_lt _ _ _ hkN
  have hx81 : x < 81 := emptyIndices_lt_81 hxE
  have hx0 : gridGet (x / 9) (x % 9) g₀ = 0 := emptyIndices_cell_zero hxE
  have hi9 : x / 9 < 9 := by omega
  have hj9 : x % 9 < 9 := by omega
  have hxinj : ∀ k', k' < (emptyIndices g₀).length → k' ≠ k →
      ((emptyIndices g₀).getD k' 0 / 9, (emptyIndices g₀).getD k' 0 % 9) ≠ (x / 9, x % 9) := by
    intro k' hk' hne
    exact cellPair_ne_of_ne (emptyIndices_getD_inj hkN hk' (fun e => hne e.symm))
  rcases htv : tryValues (x / 9) (x % 9) st.sol (st.poss.getD k []) with _ | ⟨g2, rest⟩
  · -- inner loop exhausted: clear the cell, reset candidates, back up
    have hs : stepOuter (emptyIndices g₀) st =
        ⟨st.ix - 1, writeCell (x / 9) (x % 9) 0 st.sol, st.poss.set k full9⟩ := by
      unfold stepOuter
      rw [← hk, ← hxdef, htv]
    rw [hs]
    refine ⟨wf_writeCell hwf _ _ _, ?_, ?_, ?_, ?_, ?_, ?_, ?_⟩
    · intro i j hi hj hnz
      have hne : (i, j) ≠ (x / 9, x % 9) := by
        intro hh
        have h1 := (Prod.mk.injEq .. ▸ hh).1
        have h2 := (Prod.mk.injEq .. ▸ hh).2
        rw [h1, h2] at hnz
        exact hnz hx0
      rw [gridGet_writeCell_ne st.sol hne 0]
      exact hpres i j hi hj hnz
    · intro k' hk' hgt
      simp only at hgt ⊢
      by_cases hkk : k' = k
      · subst hkk
        rw [← hxdef]
        exact gridGet_writeCell_self hwf hi9 hj9 0
      · rw [gridGet_writeCell_ne st.sol (hxinj k' hk' hkk) 0]
        exact habove k' hk' (by omega)
    · intro k' hk' hlt
      simp only at hlt ⊢
      have hkk : k' ≠ k := by omega
      rw [gridGet_writeCell_ne st.sol (hxinj k' hk' hkk) 0]
      exact hbelow k' hk' (by omega)
    · simpa using hplen
    · intro l hl
      rcases List.mem_or_eq_of_mem_set hl with hl' | rfl
      · exact hpbound l hl'
      · rfl
    · simp only
      omega
    · simp only
      omega
  · -- a candidate was accepted: write it and advance
    obtain ⟨v, hvmem, hvset, hrestlen⟩ := tryValues_some_inv htv
    obtain ⟨⟨hv1, hv9⟩, hrow, hcol, hsqu, hg2⟩ := set_cell_true_inv hvset
    subst hg2
    have hs : stepOuter (emptyIndices g₀) st =
        ⟨st.ix + 1, writeCell (x / 9) (x % 9) v st.sol, st.poss.set k rest⟩ := by
      unfold stepOuter
      rw [← hk, ← hxdef, htv]
    rw [hs]
    refine ⟨wf_writeCell hwf _ _ _, ?_, ?_, ?_, ?_, ?_, ?_, ?_⟩
    · intro i j hi hj hnz
      have hne : (i, j) ≠ (x / 9, x % 9) := by
        intro hh
        have h1 := (Prod.mk.injEq .. ▸ hh).1
        have h2 := (Prod.mk.injEq .. ▸ hh).2
        rw [h1, h2] at hnz
        exact hnz hx0
      rw [gridGet_writeCell_ne st.sol hne v]
      exact hpres i j hi hj hnz
    · intro k' hk' hgt
      simp only at hgt ⊢
      have hkk : k' ≠ k := by omega
      rw [gridGet_writeCell_ne st.sol (hxinj k' hk' hkk) v]
      exact habove k' hk' (by omega)
    · intro k' hk' hlt
      simp only at hlt ⊢
      by_cases hkk : k' = k
      · subst hkk
        rw [← hxdef, gridGet_writeCell_self hwf hi9 hj9 v]
        exact ⟨hv1, hv9⟩
      · rw [gridGet_writeCell_ne st.sol (hxinj k' hk' hkk) v]
        exact hbelow k' hk' (by omega)
    · simpa using hplen
    · intro l hl
      rcases List.mem_or_eq_of_mem_set hl with hl' | rfl
      · exact hpbound l hl'
      · have hmem : st.poss.getD k [] ∈ st.poss := getD_mem_of_lt _ _ _ (by omega)
        have := hpbound _ hmem
        omega
    · simp only
      omega
    · simp only
      omega

/-- The invariant holds along any fuelled run of the loop. -/
theorem baseInv_runLoop {g₀ : Grid} (n : ℕ) (st : SolveState) (h : BaseInv g₀ st) :
    BaseInv g₀ (runLoop (emptyIndices g₀) (emptyIndices g₀).length n st) := by
  induction n generalizing st with
  | zero => exact h
  | succ m ih =>
    rw [runLoop]
    split
    · exact ih _ (baseInv_step h (by assumption))
    · exact h

/-- The invariant holds at the initial loop state. -/
theorem baseInv_init {g₀ : Grid} (hw : Wf g₀) :
    BaseInv g₀ ⟨0, g₀, List.replicate (emptyIndices g₀).length full9⟩ := by
  refine ⟨hw, fun i j _ _ _ => rfl, ?_, ?_, by simp, ?_, by simp, by simp⟩
  · intro k hk _
    exact emptyIndices_cell_zero (getD_mem_of_lt _ _ _ hk)
  · intro k hk hlt
    simp only at hlt
    omega
  · intro l hl
    rw [List.eq_of_mem_replicate hl]
    rfl

/-- The invariant holds at the state `smarter_solve` returns. -/
theorem baseInv_final {g₀ : Grid} (hw : Wf g₀) : BaseInv g₀ (smarter_solve g₀) :=
  baseInv_runLoop FUEL _ (baseInv_init hw)

section FinalStateHelpers

theorem exists_getD_of_mem {l : List ℕ} {x : ℕ} (h : x ∈ l) :
    ∃ k, k < l.length ∧ l.getD k 0 = x := by
  obtain ⟨i, hi, hE⟩ := List.mem_iff_getElem.mp h
  exact ⟨i, hi, by rw [getD_eq_getElem_of_lt _ _ _ hi, hE]⟩

theorem getD_map_range (f : ℕ → ℤ) (n q : ℕ) (hq : q < n) :
    ((List.range n).map f).getD q 0 = f q := by
  rw [getD_eq_getElem_of_lt _ _ _ (by simpa using hq)]
  rw [List.getElem_map, List.getElem_range]

theorem nodup_getD_inj {α : Type _} (l : List α) (d : α) (hnd : l.Nodup) {a b : ℕ}
    (ha : a < l.length) (hb : b < l.length) (h : l.getD a d = l.getD b d) : a = b := by
  rw [getD_eq_getElem_of_lt _ _ _ ha, getD_eq_getElem_of_lt _ _ _ hb] at h
  exact (List.Nodup.getElem_inj_iff hnd).mp h

theorem getElem_eq_gridGet {g : Grid} {i j : ℕ} (hi : i < g.length)
    (hj2 : j < (g[i]).length) : (g[i])[j] = gridGet i j g := by
  unfold gridGet
  have hj : j < (g.getD i []).length := by rwa [getD_eq_getElem_of_lt _ _ _ hi]
  rw [getD_eq_getElem_of_lt _ _ _ hj]
  congr 1
  rw [getD_eq_getElem_of_lt _ _ _ hi]

/-- Two well-shaped grids with the same cell values are the same list. -/
theorem grid_eq_of_pointwise {g g' : Grid} (hg' : Wf g') (hg : Wf g)
    (h : ∀ i j, i < 9 → j < 9 → gridGet i j g' = gridGet i j g) : g' = g := by
  obtain ⟨hl', hr'⟩ := hg'
  obtain ⟨hl, hr⟩ := hg
  apply List.ext_getElem (by omega)
  intro i h1 h2
  have hrow' : (g'.getD i []).length = 9 := hr' _ (getD_mem_of_lt _ _ _ h1)
  have hrow : (g.getD i []).length = 9 := hr _ (getD_mem_of_lt _ _ _ h2)
  apply List.ext_getElem
  · rw [← getD_eq_getElem_of_lt _ _ [] h1, ← getD_eq_getElem_of_lt _ _ [] h2, hrow', hrow]
  · intro j hj1 hj2
    have hj9 : j < 9 := by
      have hcopy := hj1
      rw [← getD_eq_getElem_of_lt _ _ [] h1, hrow'] at hcopy
      exact hcopy
    rw [getElem_eq_gridGet h1 hj1, getElem_eq_gridGet h2 hj2]
    exact h i j (by omega) hj9

/-- In a valid board, two distinct cells of the same row, column or block
hold different values. -/
theorem validBoard_cells_distinct {s : Grid} (hw : Wf s) (hv : validBoard s)
    {i1 j1 i2 j2 : ℕ} (hi1 : i1 < 9) (hj1 : j1 < 9) (hi2 : i2 < 9) (hj2 : j2 < 9)
    (hne : (i1, j1) ≠ (i2, j2))
    (hgrp : i1 = i2 ∨ j1 = j2 ∨ (i1 / 3 = i2 / 3 ∧ j1 / 3 = j2 / 3)) :
    gridGet i1 j1 s ≠ gridGet i2 j2 s := by
  intro heq
  obtain ⟨hrows, hcols, hsqs⟩ := hv
  rcases hgrp with hg | hg | ⟨hbi, hbj⟩
  · -- same row
    subst hg
    have hjne : j1 ≠ j2 := fun e => hne (by rw [e])
    have hperm := hrows i1 hi1
    rw [get_row_eq_map hw hi1] at hperm
    have hnd := hperm.nodup_iff.mpr (by decide : oneNine.Nodup)
    have hEq : ((List.range 9).map (fun j => gridGet i1 j s)).getD j1 0 =
        ((List.range 9).map (fun j => gridGet i1 j s)).getD j2 0 := by
      rw [getD_map_range _ _ _ hj1, getD_map_range _ _ _ hj2]
      exact heq
    exact hjne (nodup_getD_inj _ 0 hnd (by simpa using hj1) (by simpa using hj2) hEq)
  · -- same column
    subst hg
    have hine : i1 ≠ i2 := fun e => hne (by rw [e])
    have hperm := hcols j1 hj1
    unfold get_col at hperm
    have hnd := hperm.nodup_iff.mpr (by decide : oneNine.Nodup)
    have hEq : ((List.range 9).map (fun i => gridGet i j1 s)).getD i1 0 =
        ((List.range 9).map (fun i => gridGet i j1 s)).getD i2 0 := by
      rw [getD_map_range _ _ _ hi1, getD_map_range _ _ _ hi2]
      exact heq
    exact hine (nodup_getD_inj _ 0 hnd (by simpa using hi1) (by simpa using hi2) hEq)
  · -- same square
    have hperm := hsqs i1 hi1 j1 hj1
    rw [get_square_eq_map] at hperm
    have hnd := hperm.nodup_iff.mpr (by decide : oneNine.Nodup)
    have hq1 : (i1 % 3) * 3 + j1 % 3 < 9 := by omega
    have hq2 : (i2 % 3) * 3 + j2 % 3 < 9 := by omega
    have hEq : ((List.range 9).map
          (fun q => gridGet ((i1 / 3) * 3 + q / 3) ((j1 / 3) * 3 + q % 3) s)).getD
            ((i1 % 3) * 3 + j1 % 3) 0 =
        ((List.range 9).map
          (fun q => gridGet ((i1 / 3) * 3 + q / 3) ((j1 / 3) * 3 + q % 3) s)).getD
            ((i2 % 3) * 3 + j2 % 3) 0 := by
      rw [getD_map_range _ _ _ hq1, getD_map_range _ _ _ hq2]
      have e1 : (i1 / 3) * 3 + ((i1 % 3) * 3 + j1 % 3) / 3 = i1 := by omega
      have e2 : (j1 / 3) * 3 + ((i1 % 3) * 3 + j1 % 3) % 3 = j1 := by omega
      have e3 : (i1 / 3) * 3 + ((i2 % 3) * 3 + j2 % 3) / 3 = i2 := by omega
      have e4 : (j1 / 3) * 3 + ((i2 % 3) * 3 + j2 % 3) % 3 = j2 := by omega
      rw [e1, e2, e3, e4]
      exact heq
    have hqq := nodup_getD_inj _ 0 hnd (by simpa using hq1) (by simpa using hq2) hEq
    have hii : i1 = i2 := by omega
    have hjj : j1 = j2 := by omega
    exact hne (by rw [hii, hjj])

end FinalStateHelpers

/-- C6: every originally given (nonzero) cell of the input keeps its value
in the board `smarter_solve` returns, whatever the outcome: the solver
only ever writes to cells that were 0 in the input. -/
theorem smarter_solve_conservative (g : Grid) (hw : Wf g) :
    ∀ i j, i < 9 → j < 9 → gridGet i j g ≠ 0 →
      gridGet i j (smarter_solve g).sol = gridGet i j g :=
  (baseInv_final hw).pres

/-- Witness for C6: cell (0,0) of the full board `B0` is returned intact. -/
theorem smarter_solve_conservative_witness :
    Wf B0 ∧ gridGet 0 0 B0 ≠ 0 ∧ gridGet 0 0 (smarter_solve B0).sol = gridGet 0 0 B0 :=
  ⟨by decide, by decide,
    smarter_solve_conservative B0 (by decide) 0 0 (by decide) (by decide) (by decide)⟩

/-- C10: when the search exhausts (final cursor below 0), every trial
assignment has been undone and `smarter_solve` returns a board equal to
its input. -/
theorem smarter_solve_failure_restores_input (g : Grid) (hw : Wf g)
    (hfail : (smarter_solve g).ix < 0) : (smarter_solve g).sol = g := by
  have hinv := baseInv_final hw
  apply grid_eq_of_pointwise hinv.wf hw
  intro i j hi hj
  by_cases hz : gridGet i j g = 0
  · have hdiv : (9 * i + j) / 9 = i := by omega
    have hmod : (9 * i + j) % 9 = j := by omega
    have hx81 : 9 * i + j < 81 := by omega
    have hmem : 9 * i + j ∈ emptyIndices g := by
      rw [mem_emptyIndices hx81, hdiv, hmod]
      exact hz
    obtain ⟨k, hk, hkx⟩ := exists_getD_of_mem hmem
    have hzero := hinv.above k hk (by omega)
    rw [hkx, hdiv, hmod] at hzero
    rw [hzero, hz]
  · exact hinv.pres i j hi hj hz

/-- Witness for C10: on the unsolvable `C10grid` the search exhausts and
the returned board is the input itself. -/
theorem smarter_solve_failure_restores_input_witness :
    Wf C10grid ∧ (smarter_solve C10grid).ix < 0 ∧ (smarter_solve C10grid).sol = C10grid :=
  ⟨by decide, by decide,
    smarter_solve_failure_restores_input C10grid (by decide) (by decide)⟩

/-- C3 (counterexample to the claim as stated): `C3grid` has two identical
nonzero values (2) in row 0, yet `smarter_solve` does not report
`'No solution found!'` — it completes the one blank cell and reports a
solution. -/
theorem smarter_solve_dup_nosolution_cex :
    gridGet 0 0 C3grid = gridGet 0 1 C3grid ∧ gridGet 0 0 C3grid ≠ 0 ∧
      foundSolution (smarter_solve C3grid) := by
  decide

/-- C3 (amended): an input with two identical nonzero values in one row,
column or block never produces a valid board: the duplicate survives in
the returned board (given cells are never overwritten), so the result
fails the row/column/block permutation check — though the solver need not
report `'No solution found!'`. -/
theorem smarter_solve_dup_never_valid (g : Grid) (i1 j1 i2 j2 : ℕ) (hw : Wf g)
    (hi1 : i1 < 9) (hj1 : j1 < 9) (hi2 : i2 < 9) (hj2 : j2 < 9)
    (hne : (i1, j1) ≠ (i2, j2))
    (hgrp : i1 = i2 ∨ j1 = j2 ∨ (i1 / 3 = i2 / 3 ∧ j1 / 3 = j2 / 3))
    (heq : gridGet i1 j1 g = gridGet i2 j2 g) (hnz : gridGet i1 j1 g ≠ 0) :
    ¬ validBoard (smarter_solve g).sol := by
  intro hvalid
  have hinv := baseInv_final hw
  have hs1 : gridGet i1 j1 (smarter_solve g).sol = gridGet i1 j1 g :=
    hinv.pres _ _ hi1 hj1 hnz
  have hnz2 : gridGet i2 j2 g ≠ 0 := heq ▸ hnz
  have hs2 : gridGet i2 j2 (smarter_solve g).sol = gridGet i2 j2 g :=
    hinv.pres _ _ hi2 hj2 hnz2
  have hseq : gridGet i1 j1 (smarter_solve g).sol = gridGet i2 j2 (smarter_solve g).sol := by
    rw [hs1, hs2, heq]
  exact validBoard_cells_distinct hinv.wf hvalid hi1 hj1 hi2 hj2 hne hgrp hseq

/-- Witness for the amended C3, at the concrete duplicated input `C3grid`. -/
theorem smarter_solve_dup_never_valid_witness :
    gridGet 0 0 C3grid = gridGet 0 1 C3grid ∧ ¬ validBoard (smarter_solve C3grid).sol :=
  ⟨by decide,
    smarter_solve_dup_never_valid C3grid 0 0 0 1 (by decide) (by decide) (by decide)
      (by decide) (by decide) (by decide) (Or.inl rfl) (by decide) (by decide)⟩

section Termination

/-- The lengths of the first `m` candidate lists, padded with 0 for the
later positions (whose lists are full anyway and play no role yet):
the digit string of the termination measure. -/
def digitsAux : ℕ → List (List ℤ) → List ℕ
  | _, [] => []
  | 0, _ :: ls => 0 :: digitsAux 0 ls
  | m + 1, l :: ls => l.length :: digitsAux m ls

/-- A digit string read as a base-10 numeral (head most significant). -/
def Mnum : List ℕ → ℕ
  | [] => 0
  | d :: ds => d * 10 ^ ds.length + Mnum ds

theorem digitsAux_length (m : ℕ) (ps : List (List ℤ)) :
    (digitsAux m ps).length = ps.length := by
  induction ps generalizing m with
  | nil => cases m <;> rfl
  | cons l ls ih =>
    cases m with
    | zero => simpa [digitsAux] using ih 0
    | succ m' => simpa [digitsAux] using ih m'

theorem digitsAux_le (m : ℕ) {ps : List (List ℤ)} (hb : ∀ l ∈ ps, l.length ≤ 9) :
    ∀ d ∈ digitsAux m ps, d ≤ 9 := by
  induction ps generalizing m with
  | nil => intro d hd; simp [digitsAux] at hd
  | cons l ls ih =>
    intro d hd
    cases m with
    | zero =>
      rw [digitsAux] at hd
      rcases List.mem_cons.mp hd with rfl | hd'
      · omega
      · exact ih 0 (fun x hx => hb x (List.mem_cons_of_mem l hx)) d hd'
    | succ m' =>
      rw [digitsAux] at hd
      rcases List.mem_cons.mp hd with rfl | hd'
      · exact hb l (List.mem_cons_self l ls)
      · exact ih m' (fun x hx => hb x (List.mem_cons_of_mem l hx)) d hd'

theorem Mnum_lt_pow {ds : List ℕ} (hb : ∀ d ∈ ds, d ≤ 9) :
    Mnum ds < 10 ^ ds.length := by
  induction ds with
  | nil => simp [Mnum]
  | cons d t ih =>
    have hd : d ≤ 9 := hb d (List.mem_cons_self d t)
    have ht := ih (fun x hx => hb x (List.mem_cons_of_mem d hx))
    have hp : (0:ℕ) < 10 ^ t.length := Nat.pos_pow_of_pos _ (by omega)
    calc Mnum (d :: t) = d * 10 ^ t.length + Mnum t := rfl
    _ < d * 10 ^ t.length + 10 ^ t.length := by omega
    _ = (d + 1) * 10 ^ t.length := by ring
    _ ≤ 10 * 10 ^ t.length := Nat.mul_le_mul_right _ (by omega)
    _ = 10 ^ (t.length + 1) := by ring
    _ = 10 ^ (d :: t).length := by rw [List.length_cons]

theorem Mnum_cons_lt {d : ℕ} {t t' : List ℕ} (hlen : t'.length = t.length)
    (h : Mnum t' < Mnum t) : Mnum (d :: t') < Mnum (d :: t) := by
  show d * 10 ^ t'.length + Mnum t' < d * 10 ^ t.length + Mnum t
  rw [hlen]
  omega

theorem Mnum_cons_le {d : ℕ} {t t' : List ℕ} (hlen : t'.length = t.length)
    (h : Mnum t' ≤ Mnum t) : Mnum (d :: t') ≤ Mnum (d :: t) := by
  show d * 10 ^ t'.length + Mnum t' ≤ d * 10 ^ t.length + Mnum t
  rw [hlen]
  omega

theorem Mnum_lt_of_head {d d' : ℕ} {t t' : List ℕ} (hlen : t'.length = t.length)
    (hd : d' < d) (hb : ∀ x ∈ t', x ≤ 9) : Mnum (d' :: t') < Mnum (d :: t) := by
  have hM' := Mnum_lt_pow hb
  have hp : (0:ℕ) < 10 ^ t.length := Nat.pos_pow_of_pos _ (by omega)
  have step : (d' + 1) * 10 ^ t.length ≤ d * 10 ^ t.length :=
    Nat.mul_le_mul_right _ (by omega)
  have hexp : (d' + 1) * 10 ^ t.length = d' * 10 ^ t.length + 10 ^ t.length := by ring
  calc Mnum (d' :: t') = d' * 10 ^ t'.length + Mnum t' := rfl
  _ = d' * 10 ^ t.length + Mnum t' := by rw [hlen]
  _ < d' * 10 ^ t.length + 10 ^ t.length := by rw [hlen] at hM'; omega
  _ ≤ d * 10 ^ t.length := by omega
  _ ≤ d * 10 ^ t.length + Mnum t := Nat.le_add_right _ _
  _ = Mnum (d :: t) := rfl

/-- A successful assignment at position `k` (cursor advances, candidate
list strictly shrinks) strictly decreases the numeral. -/
theorem digits_step_A {ps : List (List ℤ)} {k : ℕ} {r : List ℤ} (hk : k < ps.length)
    (hr : r.length < (ps.getD k []).length) (hb : ∀ l ∈ ps, l.length ≤ 9) :
    Mnum (digitsAux (k + 2) (ps.set k r)) < Mnum (digitsAux (k + 1) ps) := by
  induction ps generalizing k with
  | nil => simp at hk
  | cons l ls ih =>
    cases k with
    | zero =>
      rw [List.set_cons_zero]
      show Mnum (r.length :: digitsAux 1 ls) < Mnum (l.length :: digitsAux 0 ls)
      refine Mnum_lt_of_head ?_ hr ?_
      · rw [digitsAux_length, digitsAux_length]
      · exact digitsAux_le 1 (fun x hx => hb x (List.mem_cons_of_mem l hx))
    | succ k' =>
      rw [List.set_cons_succ]
      show Mnum (l.length :: digitsAux (k' + 2) (ls.set k' r)) <
        Mnum (l.length :: digitsAux (k' + 1) ls)
      refine Mnum_cons_lt ?_ ?_
      · rw [digitsAux_length, digitsAux_length, List.length_set]
      · exact ih (by simpa using hk) hr (fun x hx => hb x (List.mem_cons_of_mem l hx))

/-- A backtrack at position `k` (cursor retreats, candidate list reset to
full) does not increase the numeral. -/
theorem digits_step_B {ps : List (List ℤ)} {k : ℕ} (hk : k < ps.length) :
    Mnum (digitsAux k (ps.set k full9)) ≤ Mnum (digitsAux (k + 1) ps) := by
  induction ps generalizing k with
  | nil => simp at hk
  | cons l ls ih =>
    cases k with
    | zero =>
      rw [List.set_cons_zero]
      show Mnum (0 :: digitsAux 0 ls) ≤ Mnum (l.length :: digitsAux 0 ls)
      show 0 * 10 ^ (digitsAux 0 ls).length + Mnum (digitsAux 0 ls) ≤ _
      simp [Mnum]
    | succ k' =>
      rw [List.set_cons_succ]
      show Mnum (l.length :: digitsAux k' (ls.set k' full9)) ≤
        Mnum (l.length :: digitsAux (k' + 1) ls)
      refine Mnum_cons_le ?_ (ih (by simpa using hk))
      rw [digitsAux_length, digitsAux_length, List.length_set]

/-- The termination measure of a loop state. -/
def stMeasure (N : ℕ) (st : SolveState) : ℕ :=
  Mnum (digitsAux (st.ix + 1).toNat st.poss) * (N + 2) + (st.ix + 1).toNat

/-- Every iteration of the outer loop strictly decreases the measure. -/
theorem stMeasure_decreases (E : List ℕ) (N : ℕ) (st : SolveState)
    (hact : loopActive N st) (hplen : st.poss.length = N)
    (hpb : ∀ l ∈ st.poss, l.length ≤ 9) :
    stMeasure N (stepOuter E st) < stMeasure N st := by
  obtain ⟨hix0, hixN⟩ := hact
  have hkix : ((st.ix.toNat : ℤ)) = st.ix := Int.toNat_of_nonneg hix0
  have hkN : st.ix.toNat < N := by omega
  have h1toNat : (st.ix + 1).toNat = st.ix.toNat + 1 := by omega
  rcases htv : tryValues (E.getD st.ix.toNat 0 / 9) (E.getD st.ix.toNat 0 % 9) st.sol
      (st.poss.getD st.ix.toNat []) with _ | ⟨g2, rest⟩
  · have hs : stepOuter E st =
        ⟨st.ix - 1, writeCell (E.getD st.ix.toNat 0 / 9) (E.getD st.ix.toNat 0 % 9) 0 st.sol,
          st.poss.set st.ix.toNat full9⟩ := by
      unfold stepOuter
      rw [htv]
    rw [hs]
    unfold stMeasure
    simp only
    have hB := @digits_step_B st.poss st.ix.toNat (by omega)
    have htn : (st.ix - 1 + 1).toNat = st.ix.toNat := by omega
    rw [htn, h1toNat]
    have hmul := Nat.mul_le_mul_right (N + 2) hB
    omega
  · obtain ⟨v, hvmem, hvset, hrestlen⟩ := tryValues_some_inv htv
    have hs : stepOuter E st = ⟨st.ix + 1, g2, st.poss.set st.ix.toNat rest⟩ := by
      unfold stepOuter
      rw [htv]
    rw [hs]
    unfold stMeasure
    simp only
    have hA := @digits_step_A st.poss st.ix.toNat rest (by omega) hrestlen hpb
    have htn : (st.ix + 1 + 1).toNat = st.ix.toNat + 2 := by omega
    rw [htn, h1toNat]
    have hle : Mnum (digitsAux (st.ix.toNat + 2) (st.poss.set st.ix.toNat rest)) + 1 ≤
        Mnum (digitsAux (st.ix.toNat + 1) st.poss) := hA
    have hmul := Nat.mul_le_mul_right (N + 2)
      (hle : Mnum (digitsAux (st.ix.toNat + 2) (st.poss.set st.ix.toNat rest)) + 1 ≤
        Mnum (digitsAux (st.ix.toNat + 1) st.poss))
    have hexp : (Mnum (digitsAux (st.ix.toNat + 2) (st.poss.set st.ix.toNat rest)) + 1) *
        (N + 2) =
        Mnum (digitsAux (st.ix.toNat + 2) (st.poss.set st.ix.toNat rest)) * (N + 2) +
          (N + 2) := by ring
    omega

/-- Enough fuel drives the loop to a terminal (inactive) state. -/
theorem runLoop_reaches_terminal {g₀ : Grid} :
    ∀ (n : ℕ) (st : SolveState), BaseInv g₀ st →
      stMeasure (emptyIndices g₀).length st < n →
      ¬ loopActive (emptyIndices g₀).length
        (runLoop (emptyIndices g₀) (emptyIndices g₀).length n st) := by
  intro n
  induction n with
  | zero => intro st _ hm; omega
  | succ m ih =>
    intro st hb hm
    rw [runLoop]
    by_cases hact : loopActive (emptyIndices g₀).length st
    · rw [if_pos hact]
      refine ih _ (baseInv_step hb hact) ?_
      have := stMeasure_decreases (emptyIndices g₀) (emptyIndices g₀).length st hact
        hb.possLen hb.possBound
      omega
    · rw [if_neg hact]
      exact hact

/-- The initial measure is far below `FUEL`, for any 9x9 input. -/
theorem initial_measure_lt_FUEL {g₀ : Grid} :
    stMeasure (emptyIndices g₀).length
      ⟨0, g₀, List.replicate (emptyIndices g₀).length full9⟩ < FUEL := by
  have hN : (emptyIndices g₀).length ≤ 81 := emptyIndices_length_le g₀
  have hb : ∀ l ∈ List.replicate (emptyIndices g₀).length full9, l.length ≤ 9 := by
    intro l hl
    rw [List.eq_of_mem_replicate hl]
    rfl
  have hd := Mnum_lt_pow (digitsAux_le ((0:ℤ) + 1).toNat hb)
  rw [digitsAux_length, List.length_replicate] at hd
  have hpow : (10:ℕ) ^ (emptyIndices g₀).length ≤ 10 ^ 81 :=
    Nat.pow_le_pow_right (by omega) hN
  unfold stMeasure
  simp only
  have hM : Mnum (digitsAux ((0:ℤ) + 1).toNat
      (List.replicate (emptyIndices g₀).length full9)) ≤ 10 ^ 81 - 1 := by omega
  have hmul : Mnum (digitsAux ((0:ℤ) + 1).toNat
      (List.replicate (emptyIndices g₀).length full9)) * ((emptyIndices g₀).length + 2) ≤
      (10 ^ 81 - 1) * 83 :=
    Nat.mul_le_mul hM (by omega)
  have hnum : (10 ^ 81 - 1) * 83 + 2 < FUEL := by norm_num [FUEL]
  omega

/-- The state `smarter_solve` returns is terminal: the loop guard fails. -/
theorem smarter_solve_not_active {g₀ : Grid} (hw : Wf g₀) :
    ¬ loopActive (emptyIndices g₀).length (smarter_solve g₀) :=
  runLoop_reaches_terminal FUEL _ (baseInv_init hw) initial_measure_lt_FUEL

/-- The final cursor is `N` (success) or `-1` (exhausted search). -/
theorem smarter_solve_cursor_final {g₀ : Grid} (hw : Wf g₀) :
    (smarter_solve g₀).ix = ((emptyIndices g₀).length : ℤ) ∨ (smarter_solve g₀).ix = -1 := by
  have hno := smarter_solve_not_active hw
  have hinv := baseInv_final hw
  have hlo := hinv.ixLo
  have hhi := hinv.ixHi
  unfold loopActive at hno
  push_neg at hno
  by_cases h0 : 0 ≤ (smarter_solve g₀).ix
  · left
    have := hno h0
    omega
  · right
    omega

end Termination

/-- C7: for every 9x9 input with values in 0..9, the solver's outer loop
terminates within the (finite) fuel, exiting with the cursor at `N` (all
empty cells filled) or at `-1` (search exhausted); it is never stopped
mid-loop by fuel exhaustion. -/
theorem smarter_solve_terminates (g : Grid) (hw : Wf g) (hv : valuesIn g) :
    (smarter_solve g).ix = ((emptyIndices g).length : ℤ) ∨ (smarter_solve g).ix = -1 :=
  smarter_solve_cursor_final hw

/-- Witness for C7 at the concrete full board `B0`. -/
theorem smarter_solve_terminates_witness :
    Wf B0 ∧ valuesIn B0 ∧
      ((smarter_solve B0).ix = ((emptyIndices B0).length : ℤ) ∨ (smarter_solve B0).ix = -1) :=
  ⟨by decide, by decide, smarter_solve_terminates B0 (by decide) (by decide)⟩

section OkGridLoop

/-- One outer-loop iteration keeps the working board duplicate-free. -/
theorem okInv_step {g₀ : Grid} {st : SolveState} (hb : BaseInv g₀ st)
    (hok : okGrid st.sol) (hact : loopActive (emptyIndices g₀).length st) :
    okGrid (stepOuter (emptyIndices g₀) st).sol := by
  obtain ⟨hix0, hixN⟩ := hact
  have hkix : ((st.ix.toNat : ℤ)) = st.ix := Int.toNat_of_nonneg hix0
  have hkN : st.ix.toNat < (emptyIndices g₀).length := by omega
  have hxE : (emptyIndices g₀).getD st.ix.toNat 0 ∈ emptyIndices g₀ :=
    getD_mem_of_lt _ _ _ hkN
  have hx81 := emptyIndices_lt_81 hxE
  have hi9 : (emptyIndices g₀).getD st.ix.toNat 0 / 9 < 9 := by omega
  have hj9 : (emptyIndices g₀).getD st.ix.toNat 0 % 9 < 9 := by omega
  rcases htv : tryValues ((emptyIndices g₀).getD st.ix.toNat 0 / 9)
      ((emptyIndices g₀).getD st.ix.toNat 0 % 9) st.sol
      (st.poss.getD st.ix.toNat []) with _ | ⟨g2, rest⟩
  · have hs : (stepOuter (emptyIndices g₀) st).sol =
        writeCell ((emptyIndices g₀).getD st.ix.toNat 0 / 9)
          ((emptyIndices g₀).getD st.ix.toNat 0 % 9) 0 st.sol := by
      unfold stepOuter
      rw [htv]
    rw [hs]
    exact okGrid_clear hb.wf hi9 hj9 hok
  · obtain ⟨v, hvmem, hvset, hrestlen⟩ := tryValues_some_inv htv
    obtain ⟨⟨hv1, hv9⟩, hrow, hcol, hsqu, hg2⟩ := set_cell_true_inv hvset
    have hs : (stepOuter (emptyIndices g₀) st).sol = g2 := by
      unfold stepOuter
      rw [htv]
    rw [hs, hg2]
    exact okGrid_writeCell hb.wf hi9 hj9 (Or.inr ⟨hrow, hcol, hsqu⟩) hok

/-- The board stays duplicate-free along any fuelled run. -/
theorem okGrid_runLoop {g₀ : Grid} (n : ℕ) (st : SolveState) (hb : BaseInv g₀ st)
    (hok : okGrid st.sol) :
    okGrid (runLoop (emptyIndices g₀) (emptyIndices g₀).length n st).sol := by
  induction n generalizing st with
  | zero => exact hok
  | succ m ih =>
    rw [runLoop]
    by_cases hact : loopActive (emptyIndices g₀).length st
    · rw [if_pos hact]
      exact ih _ (baseInv_step hb hact) (okInv_step hb hok hact)
    · rw [if_neg hact]
      exact hok

/-- A duplicate-free input yields a duplicate-free returned board. -/
theorem okGrid_final {g₀ : Grid} (hw : Wf g₀) (hok : okGrid g₀) :
    okGrid (smarter_solve g₀).sol :=
  okGrid_runLoop FUEL _ (baseInv_init hw) hok

end OkGridLoop

section PermHelpers

theorem nodup_of_nodupNZ {L : List ℤ} (h : nodupNZ L) (hnz : ∀ v ∈ L, v ≠ 0) :
    L.Nodup := by
  unfold nodupNZ at h
  exact h.imp_of_mem (fun ha _ hab => hab (hnz _ ha))

theorem perm_oneNine_of {L : List ℤ} (hlen : L.length = 9)
    (hvals : ∀ v ∈ L, 1 ≤ v ∧ v ≤ 9) (hnd : L.Nodup) : L.Perm oneNine := by
  have hsub : L ⊆ oneNine := by
    intro v hv
    have := hvals v hv
    unfold oneNine
    simp only [List.mem_cons, List.not_mem_nil, or_false]
    omega
  exact (hnd.subperm hsub).perm_of_length_le (by rw [hlen]; rfl)

end PermHelpers

/-- C1 (counterexample to the claim as stated): the all-ones grid has no
blank cell, so `smarter_solve` returns it at once reporting success, yet
its row 0 is `[1,...,1]`, not a permutation of 1..9. -/
theorem smarter_solve_sound_cex :
    foundSolution (smarter_solve allOnes) ∧
      ¬ (get_row 0 (smarter_solve allOnes).sol).Perm oneNine := by
  decide

/-- C1 (amended): when the input is 9x9 with values 0..9 **and its given
cells contain no duplicate in any row, column or block**, then whenever
`smarter_solve` reports success, the returned board has every row, column
and block a permutation of 1..9.  The extra no-duplicate hypothesis is
forced: the code never validates given cells, so e.g. an already-complete
invalid board is returned as a "solution" unchanged. -/
theorem smarter_solve_sound_amended (g : Grid) (hw : Wf g) (hvals : valuesIn g)
    (hok : okGrid g) (hfound : foundSolution (smarter_solve g)) :
    validBoard (smarter_solve g).sol := by
  have hinv := baseInv_final hw
  have hix : (smarter_solve g).ix = ((emptyIndices g).length : ℤ) := by
    rcases smarter_solve_cursor_final hw with h | h
    · exact h
    · unfold foundSolution at hfound
      omega
  have hokfin := okGrid_final hw hok
  -- every cell of the returned board holds a value in 1..9
  have hcells : ∀ i j, i < 9 → j < 9 →
      1 ≤ gridGet i j (smarter_solve g).sol ∧ gridGet i j (smarter_solve g).sol ≤ 9 := by
    intro i j hi hj
    by_cases hz : gridGet i j g = 0
    · have hdiv : (9 * i + j) / 9 = i := by omega
      have hmod : (9 * i + j) % 9 = j := by omega
      have hmem : 9 * i + j ∈ emptyIndices g := by
        rw [mem_emptyIndices (by omega), hdiv, hmod]
        exact hz
      obtain ⟨k, hk, hkx⟩ := exists_getD_of_mem hmem
      have hfill := hinv.below k hk (by omega)
      rw [hkx, hdiv, hmod] at hfill
      exact hfill
    · have hp := hinv.pres i j hi hj hz
      have hb := hvals i hi j hj
      rw [hp]
      constructor <;> omega
  obtain ⟨hrowsOk, hcolsOk, hsqsOk⟩ := hokfin
  refine ⟨?_, ?_, ?_⟩
  · intro i hi
    rw [get_row_eq_map hinv.wf hi]
    refine perm_oneNine_of (by simp) ?_ ?_
    · intro v hv
      obtain ⟨j, hj, rfl⟩ := by simpa using hv
      exact hcells i j hi hj
    · refine nodup_of_nodupNZ ?_ ?_
      · rw [← get_row_eq_map hinv.wf hi]
        exact hrowsOk i hi
      · intro v hv
        obtain ⟨j, hj, rfl⟩ := by simpa using hv
        have := hcells i j hi hj
        omega
  · intro j hj
    unfold get_col
    refine perm_oneNine_of (by simp) ?_ ?_
    · intro v hv
      obtain ⟨i, hi, rfl⟩ := by simpa using hv
      exact hcells i j hi hj
    · refine nodup_of_nodupNZ ?_ ?_
      · exact hcolsOk j hj
      · intro v hv
        obtain ⟨i, hi, rfl⟩ := by simpa using hv
        have := hcells i j hi hj
        omega
  · intro i hi j hj
    rw [get_square_eq_map]
    refine perm_oneNine_of (by simp) ?_ ?_
    · intro v hv
      obtain ⟨q, hq, rfl⟩ := by simpa using hv
      exact hcells _ _ (by omega) (by omega)
    · refine nodup_of_nodupNZ ?_ ?_
      · rw [← get_square_eq_map]
        exact hsqsOk i hi j hj
      · intro v hv
        obtain ⟨q, hq, rfl⟩ := by simpa using hv
        have := hcells ((i / 3) * 3 + q / 3) ((j / 3) * 3 + q % 3) (by omega) (by omega)
        omega

/-- Witness for the amended C1: solving `B1` (one blank, consistent)
succeeds and yields a fully valid board. -/
theorem smarter_solve_sound_amended_witness :
    Wf B1 ∧ valuesIn B1 ∧ okGrid B1 ∧ foundSolution (smarter_solve B1) ∧
      validBoard (smarter_solve B1).sol :=
  ⟨by decide, by decide, by decide, by decide,
    smarter_solve_sound_amended B1 (by decide) (by decide) (by decide) (by decide)⟩

/-- When the solver reports success, the cursor reached `N`. -/
theorem smarter_solve_found_ix {g : Grid} (hw : Wf g)
    (hfound : foundSolution (smarter_solve g)) :
    (smarter_solve g).ix = ((emptyIndices g).length : ℤ) := by
  rcases smarter_solve_cursor_final hw with h | h
  · exact h
  · unfold foundSolution at hfound
    omega

/-- The all-ones grid admits no consistent completion: any completion
would equal it on every (given) cell, and its row 0 repeats the value 1. -/
theorem allOnes_no_completion : ¬ admitsCompletion allOnes := by
  rintro ⟨B, hwB, hvB, hagree⟩
  have h00 : gridGet 0 0 B = 1 := by
    have h := hagree 0 (by omega) 0 (by omega) (by decide)
    rw [h]
    decide
  have h01 : gridGet 0 1 B = 1 := by
    have h := hagree 0 (by omega) 1 (by omega) (by decide)
    rw [h]
    decide
  exact @validBoard_cells_distinct B hwB hvB 0 0 0 1 (by omega) (by omega) (by omega)
    (by omega) (by decide) (Or.inl rfl) (by rw [h00, h01])

/-- C2 (counterexample to the claim as stated): on the unsolvable all-ones
input the solver emits no distinguishable no-solution signal at all — it
reports `'Solution found!'` (the cursor branch for success). -/
theorem smarter_solve_failure_signal_cex :
    ¬ admitsCompletion allOnes ∧ foundSolution (smarter_solve allOnes) :=
  ⟨allOnes_no_completion, by decide⟩

/-- C2 (amended): on an input admitting no consistent completion the
returned board is never a valid board — so a caller can always detect
failure by validating the result — and a success report is never attached
to a partially filled board (on success every cell is nonzero).  However,
the code returns a plain board in all cases and can even report success
on an unsolvable (already-complete, invalid) input, so there is no
distinct no-solution value. -/
theorem smarter_solve_failure_detectable (g : Grid) (hw : Wf g)
    (hnone : ¬ admitsCompletion g) :
    ¬ validBoard (smarter_solve g).sol ∧
      (foundSolution (smarter_solve g) →
        ∀ i j, i < 9 → j < 9 → gridGet i j (smarter_solve g).sol ≠ 0) := by
  have hinv := baseInv_final hw
  constructor
  · intro hv
    exact hnone ⟨(smarter_solve g).sol, hinv.wf, hv,
      fun i hi j hj hnz => hinv.pres i j hi hj hnz⟩
  · intro hfound i j hi hj
    have hix := smarter_solve_found_ix hw hfound
    by_cases hz : gridGet i j g = 0
    · have hdiv : (9 * i + j) / 9 = i := by omega
      have hmod : (9 * i + j) % 9 = j := by omega
      have hmem : 9 * i + j ∈ emptyIndices g := by
        rw [mem_emptyIndices (by omega), hdiv, hmod]
        exact hz
      obtain ⟨k, hk, hkx⟩ := exists_getD_of_mem hmem
      have hfill := hinv.below k hk (by omega)
      rw [hkx, hdiv, hmod] at hfill
      omega
    · rw [hinv.pres i j hi hj hz]
      exact hz

/-- Witness for the amended C2 at the unsolvable all-ones input. -/
theorem smarter_solve_failure_detectable_witness :
    Wf allOnes ∧
      (¬ validBoard (smarter_solve allOnes).sol ∧
        (foundSolution (smarter_solve allOnes) →
          ∀ i j, i < 9 → j < 9 → gridGet i j (smarter_solve allOnes).sol ≠ 0)) :=
  ⟨by decide, smarter_solve_failure_detectable allOnes (by decide) allOnes_no_completion⟩

section HeapModel

/-!
Python passes the board by reference and `set_cell` mutates it in place,
so the frame claim "the caller's grid is untouched" is about object
identity: it holds because `smarter_solve` calls `copy.deepcopy(grid)`
(line 236) and all writes go through the copy.  To state this faithfully
we re-run the same algorithm over an explicit heap of row objects: a grid
object is a list of references (heap indices) to its rows, `deepcopy`
allocates fresh rows, and every write dereferences the solution object's
references.  Had the code aliased (`solution = grid`) or shallow-copied
(sharing row objects), the writes would hit the caller's rows.
-/

/-- The heap of Python row-list objects, addressed by index. -/
abbrev RowHeap : Type := List (List ℤ)

/-- A grid object: the references to its nine row objects. -/
abbrev GridRefs : Type := List ℕ

/-- Dereference a row object. -/
def readRow (h : RowHeap) (r : ℕ) : List ℤ := h.getD r []

/-- `grid[i][j]` through the heap. -/
def hGridGet (h : RowHeap) (rs : GridRefs) (i j : ℕ) : ℤ :=
  (readRow h (rs.getD i 0)).getD j 0

/-- `grid[i][j] = v` through the heap: mutates the row object in place. -/
def hWrite (h : RowHeap) (rs : GridRefs) (i j : ℕ) (v : ℤ) : RowHeap :=
  h.set (rs.getD i 0) ((readRow h (rs.getD i 0)).set j v)

/-- `copy.deepcopy(grid)`: fresh copies of the reachable rows are
allocated at the end of the heap; the copy references only those. -/
def deepcopy (h : RowHeap) (rs : GridRefs) : RowHeap × GridRefs :=
  (h ++ rs.map (readRow h), List.range' h.length rs.length)

/-- `get_row` through the heap. -/
def hget_row (h : RowHeap) (rs : GridRefs) (i : ℕ) : List ℤ :=
  readRow h (rs.getD i 0)

/-- `get_col` through the heap. -/
def hget_col (h : RowHeap) (rs : GridRefs) (j : ℕ) : List ℤ :=
  (List.range 9).map (fun i => hGridGet h rs i j)

/-- `get_square` through the heap. -/
def hget_square (h : RowHeap) (rs : GridRefs) (i j : ℕ) : List ℤ :=
  ((List.range 3).map (fun dy =>
    (List.range 3).map (fun dx =>
      hGridGet h rs ((i / 3) * 3 + dy) ((j / 3) * 3 + dx)))).flatten

/-- `set_cell` through the heap: same checks, write through the references. -/
def hset_cell (i j : ℕ) (h : RowHeap) (rs : GridRefs) (v : ℤ) : Bool × RowHeap :=
  if 1 ≤ v ∧ v ≤ 9 then
    if v ∈ hget_row h rs i then (false, h)
    else if v ∈ hget_col h rs j then (false, h)
    else if v ∈ hget_square h rs i j then (false, h)
    else (true, hWrite h rs i j v)
  else
    (false, h)

/-- The solver's loop state over the heap. -/
structure HSolveState where
  ix : ℤ
  heap : RowHeap
  poss : List (List ℤ)

/-- The inner candidate loop over the heap. -/
def htryValues (i j : ℕ) (h : RowHeap) (rs : GridRefs) :
    List ℤ → Option (RowHeap × List ℤ)
  | [] => none
  | v :: rest =>
    match hset_cell i j h rs v with
    | (true, h') => some (h', rest)
    | (false, _) => htryValues i j h rs rest

/-- One outer-loop iteration over the heap. -/
def hstepOuter (E : List ℕ) (rs : GridRefs) (st : HSolveState) : HSolveState :=
  match htryValues (E.getD st.ix.toNat 0 / 9) (E.getD st.ix.toNat 0 % 9) st.heap rs
      (st.poss.getD st.ix.toNat []) with
  | some (h', rest) => ⟨st.ix + 1, h', st.poss.set st.ix.toNat rest⟩
  | none =>
    ⟨st.ix - 1, hWrite st.heap rs (E.getD st.ix.toNat 0 / 9) (E.getD st.ix.toNat 0 % 9) 0,
      st.poss.set st.ix.toNat full9⟩

/-- The loop guard over the heap state. -/
def hloopActive (N : ℕ) (st : HSolveState) : Prop :=
  0 ≤ st.ix ∧ st.ix < (N : ℤ)

instance (N : ℕ) (st : HSolveState) : Decidable (hloopActive N st) := by
  unfold hloopActive; infer_instance

/-- Fuelled outer loop over the heap. -/
def hrunLoop (E : List ℕ) (N : ℕ) (rs : GridRefs) : ℕ → HSolveState → HSolveState
  | 0, st => st
  | n + 1, st =>
    if hloopActive N st then hrunLoop E N rs n (hstepOuter E rs st) else st

/-- `smarter_solve` over the heap: the caller's grid object owns rows
`0 .. g.length - 1`; the solver deep-copies it (rows `g.length ..`) and
runs the same loop writing only through the copy's references.  The empty
cell list is computed from the caller's grid (line 241 reads `grid`),
whose value at that point is still `g`. -/
def smarter_solve_heap (g : Grid) : HSolveState :=
  let callerRefs := List.range g.length
  let copied := deepcopy g callerRefs
  let E := emptyIndices g
  let N := E.length
  hrunLoop E N copied.2 FUEL ⟨0, copied.1, List.replicate N full9⟩

theorem getD_append_left {α : Type _} (l l' : List α) (n : ℕ) (d : α) (h : n < l.length) :
    (l ++ l').getD n d = l.getD n d := by
  induction l generalizing n with
  | nil => simp at h
  | cons a t ih =>
    cases n with
    | zero => rfl
    | succ m => simpa using ih m (by simpa using h)

theorem range'_nine_getD {i : ℕ} (hi : i < 9) : (List.range' 9 9).getD i 0 = 9 + i := by
  interval_cases i <;> rfl

/-- A successful heap inner loop only ever produces a single-cell write
through the given references. -/
theorem htryValues_heap_inv {i j : ℕ} {h : RowHeap} {rs : GridRefs} {l : List ℤ}
    {h' : RowHeap} {rest : List ℤ} (he : htryValues i j h rs l = some (h', rest)) :
    ∃ v, h' = hWrite h rs i j v := by
  induction l with
  | nil => simp [htryValues] at he
  | cons v t ih =>
    rcases hsc : hset_cell i j h rs v with ⟨b, h2⟩
    cases b with
    | true =>
      rw [htryValues, hsc] at he
      obtain ⟨h1, _⟩ := Prod.mk.injEq .. ▸ Option.some.injEq .. ▸ he
      refine ⟨v, ?_⟩
      rw [← h1]
      unfold hset_cell at hsc
      split_ifs at hsc with e1 e2 e3 e4
      · exact absurd (Prod.mk.injEq .. ▸ hsc).1 (by simp)
      · exact absurd (Prod.mk.injEq .. ▸ hsc).1 (by simp)
      · exact absurd (Prod.mk.injEq .. ▸ hsc).1 (by simp)
      · exact ((Prod.mk.injEq .. ▸ hsc).2).symm
      · exact absurd (Prod.mk.injEq .. ▸ hsc).1 (by simp)
    | false =>
      rw [htryValues, hsc] at he
      exact ih he

/-- Writes through references `≥ 9` leave rows `0..8` untouched. -/
theorem hWrite_preserves_low {h : RowHeap} {rs : GridRefs} {i j : ℕ} {v : ℤ} {r : ℕ}
    (hr : r < 9) (href : 9 ≤ rs.getD i 0) :
    (hWrite h rs i j v).getD r [] = h.getD r [] := by
  unfold hWrite
  exact getD_set_ne _ _ _ _ _ (by omega)

/-- Along the run that starts from the deep copy, rows `0..8` (the
caller's) never change. -/
theorem hrunLoop_preserves_caller {g : Grid} :
    ∀ (n : ℕ) (st : HSolveState),
      (∀ r, r < 9 → st.heap.getD r [] = g.getD r []) →
      ∀ r, r < 9 →
        (hrunLoop (emptyIndices g) (emptyIndices g).length (List.range' 9 9) n st).heap.getD
          r [] = g.getD r [] := by
  intro n
  induction n with
  | zero => intro st hst; exact hst
  | succ m ih =>
    intro st hst
    rw [hrunLoop]
    by_cases hact : hloopActive (emptyIndices g).length st
    · rw [if_pos hact]
      refine ih _ ?_
      obtain ⟨hix0, hixN⟩ := hact
      have hkN : st.ix.toNat < (emptyIndices g).length := by omega
      have hxE : (emptyIndices g).getD st.ix.toNat 0 ∈ emptyIndices g :=
        getD_mem_of_lt _ _ _ hkN
      have hx81 := emptyIndices_lt_81 hxE
      have hi9 : (emptyIndices g).getD st.ix.toNat 0 / 9 < 9 := by omega
      have href : 9 ≤ (List.range' 9 9).getD ((emptyIndices g).getD st.ix.toNat 0 / 9) 0 := by
        rw [range'_nine_getD hi9]
        omega
      rcases htv : htryValues ((emptyIndices g).getD st.ix.toNat 0 / 9)
          ((emptyIndices g).getD st.ix.toNat 0 % 9) st.heap (List.range' 9 9)
          (st.poss.getD st.ix.toNat []) with _ | ⟨h2, rest⟩
      · have hs : (hstepOuter (emptyIndices g) (List.range' 9 9) st).heap =
            hWrite st.heap (List.range' 9 9) ((emptyIndices g).getD st.ix.toNat 0 / 9)
              ((emptyIndices g).getD st.ix.toNat 0 % 9) 0 := by
          unfold hstepOuter
          rw [htv]
        intro r hr
        rw [hs, hWrite_preserves_low hr href]
        exact hst r hr
      · obtain ⟨v, hv⟩ := htryValues_heap_inv htv
        have hs : (hstepOuter (emptyIndices g) (List.range' 9 9) st).heap = h2 := by
          unfold hstepOuter
          rw [htv]
        intro r hr
        rw [hs, hv, hWrite_preserves_low hr href]
        exact hst r hr
    · rw [if_neg hact]
      exact hst

end HeapModel

/-- C9: `smarter_solve` never mutates the caller's grid object: after the
call (solution or not), reading the caller's rows out of the final heap
gives back exactly the input grid, because every write dereferences the
deep copy's row objects, which are disjoint from the caller's. -/
theorem smarter_solve_caller_grid_unchanged (g : Grid) (hw : Wf g) :
    (List.range 9).map (fun r => (smarter_solve_heap g).heap.getD r []) = g := by
  obtain ⟨hlen, hrow⟩ := hw
  have hrs : List.range' g.length g.length = List.range' 9 9 := by rw [hlen]
  have hcaller : ∀ r, r < 9 → (smarter_solve_heap g).heap.getD r [] = g.getD r [] := by
    unfold smarter_solve_heap deepcopy
    simp only [List.length_range]
    rw [hrs]
    refine hrunLoop_preserves_caller FUEL _ ?_
    intro r hr
    exact getD_append_left _ _ _ _ (by omega)
  apply List.ext_getElem
  · simp [hlen]
  · intro r h1 h2
    rw [List.getElem_map, List.getElem_range]
    have hr9 : r < 9 := by simpa using h1
    rw [hcaller r hr9]
    exact getD_eq_getElem_of_lt _ _ _ (by omega)

/-- Witness for C9 at the concrete full board `B0`. -/
theorem smarter_solve_caller_grid_unchanged_witness :
    Wf B0 ∧ (List.range 9).map (fun r => (smarter_solve_heap B0).heap.getD r []) = B0 :=
  ⟨by decide, smarter_solve_caller_grid_unchanged B0 (by decide)⟩
